import Mathlib

/-!
Verification development for the price-scout repository.

The Lean definitions below are shallow embeddings of the Python source:
pure string/number processing is translated directly (text is carried as
`List Char`); the network and DOM layers are represented by structures
holding exactly the fields the code reads off the page (the vendor-specific
CSS selectors themselves are out of scope per the specification);
exceptions become `Except`; Python `float` is modelled as exact decimal
parsing followed by IEEE-754 binary64 round-to-nearest-even (`roundB64`);
`decimal.Decimal` amounts are carried as exact rationals `ℚ`.
-/

namespace PriceScout

/-- Text, as a list of characters (Python `str`). -/
abbrev Str := List Char

/-! ## Python string primitives -/

/-- Python `str.lower()` restricted to ASCII (MPNs and labels are ASCII). -/
def pyLower (s : Str) : Str := s.map Char.toLower

/-- Python `needle in hay` substring test. -/
def strContains (hay needle : Str) : Bool :=
  (List.range (hay.length + 1)).any
    fun i => decide (((hay.drop i).take needle.length) = needle)

/-- Case-insensitive whole-string equality (`a.lower() == b.lower()`). -/
def lowerEq (a b : Str) : Bool := decide (pyLower a = pyLower b)

/-- Python `s.strip()` / `str.trim`-style whitespace removal at both ends. -/
def pyStrip (s : Str) : Str :=
  ((s.dropWhile Char.isWhitespace).reverse.dropWhile Char.isWhitespace).reverse

/-- Python `s.split()` with no separator: whitespace runs, no empty tokens. -/
def pySplitWs (s : Str) : List Str :=
  (s.splitOnP Char.isWhitespace).filter (· ≠ [])

/-- Python `s.split()[-1]`: `none` models the `IndexError` raised on an
all-whitespace string. -/
def lastToken (s : Str) : Option Str :=
  (pySplitWs s).getLast?

/-- `re.sub(r'[^\d.]', '', s)`: keep only ASCII digits and dots. -/
def stripNonDigitDot (s : Str) : Str :=
  s.filter (fun c => c.isDigit || c = '.')

/-- Python `s.replace(",", "")`. -/
def dropCommas (s : Str) : Str := s.filter (· ≠ ',')

/-! ## Python float model

`parseDecParts?` parses the plain decimal literals that occur in scraped
price text (optional sign, digits, at most one dot); the other inputs
Python `float()` accepts (exponents, `inf`, `nan`, underscores) never
arise from the price pipelines modelled here and are mapped to `none`
(= `ValueError`).  `roundB64` is IEEE-754 binary64 round-to-nearest
(ties to even) for magnitudes in the binary64 normal range below `2^63`,
which covers every price. -/

/-- Numeric value of a digit string. -/
def digitsVal (cs : Str) : ℕ :=
  cs.foldl (fun a c => 10 * a + (c.toNat - 48)) 0

/-- Parse an unsigned decimal body to (numerator, decimal places). -/
def parseDecBody? (body : Str) : Option (ℕ × ℕ) :=
  let intPart := body.takeWhile (· ≠ '.')
  let rest := body.dropWhile (· ≠ '.')
  if intPart.all Char.isDigit then
    match rest with
    | [] => if intPart = [] then none else some (digitsVal intPart, 0)
    | _ :: frac =>
      if frac.any (· = '.') then none
      else if intPart = [] ∧ frac = [] then none
      else if frac.all Char.isDigit then
        some (digitsVal (intPart ++ frac), frac.length)
      else none
  else none

/-- Parse a decimal literal to (negative?, numerator, decimal places).
The value denoted is `± num / 10^places`. -/
def parseDecParts? (s : Str) : Option (Bool × ℕ × ℕ) :=
  match pyStrip s with
  | '-' :: rest => (parseDecBody? rest).map fun nk => (true, nk)
  | '+' :: rest => (parseDecBody? rest).map fun nk => (false, nk)
  | cs => (parseDecBody? cs).map fun nk => (false, nk)

/-- Exact rational value of a decimal literal, before any float rounding. -/
def parseDecExact? (s : Str) : Option ℚ :=
  (parseDecParts? s).map fun (neg, n, k) =>
    mkRat (if neg then -(n : ℤ) else (n : ℤ)) (10 ^ k)

/-- Bit length of a natural number below `2^128`. -/
def natBits (n : ℕ) : ℕ :=
  (List.range 128).foldl (fun acc k => if 2 ^ k ≤ n then k + 1 else acc) 0

/-- Floor of log2 of the positive rational `a / b`. -/
def ratFloorLog2 (a b : ℕ) : ℤ :=
  let d : ℤ := (natBits a : ℤ) - (natBits b : ℤ)
  -- `2^(d-1) ≤ a/b < 2^(d+1)`; pick `d` or `d-1` by one sign-free test:
  -- `2^d ≤ a/b  ↔  b * 2^(bits a) ≤ a * 2^(bits b)`.
  if b * 2 ^ natBits a ≤ a * 2 ^ natBits b then d else d - 1

/-- Round `a / b` (both positive) to the nearest integer, ties to even. -/
def roundHalfEvenNat (a b : ℕ) : ℕ :=
  let q := a / b
  let r := a % b
  if 2 * r < b then q
  else if b < 2 * r then q + 1
  else if q % 2 = 0 then q else q + 1

/-- Binary64 round-to-nearest-even of the positive value `a / b`
(normal range; the scaling to a 53-bit significand is exact). -/
def roundB64Frac (a b : ℕ) : ℚ :=
  let s : ℤ := 52 - ratFloorLog2 a b
  if 0 ≤ s then
    mkRat (roundHalfEvenNat (a * 2 ^ s.toNat) b : ℤ) (2 ^ s.toNat)
  else
    mkRat ((roundHalfEvenNat a (b * 2 ^ (-s).toNat) : ℤ) * 2 ^ (-s).toNat) 1

/-- Binary64 rounding of an exact rational (sign-symmetric, 0 maps to 0). -/
def roundB64 (q : ℚ) : ℚ :=
  if q = 0 then 0
  else if q < 0 then -(roundB64Frac q.num.natAbs q.den)
  else roundB64Frac q.num.natAbs q.den

/-- Python `float(s)`: exact decimal parse, then binary64 rounding.
`none` models a raised `ValueError`. -/
def pyFloat? (s : Str) : Option ℚ :=
  (parseDecExact? s).map roundB64

/-! ## Python float repr and pydantic's float→Decimal conversion

A pydantic `Decimal` field validates a float `v` as `Decimal(str(v))`, and
`str` on a float prints the shortest decimal string that parses back to
the same binary64.  `shortestReprPos` models that: the first significand
length `p ∈ 1..17` whose nearest `p`-digit decimal rounds back to the
float, returning that decimal's exact value (17 digits always round-trip,
so the fallback arm is never reached on genuine binary64 inputs). -/

/-- Decimal digit count of a natural number below `10^40`. -/
def natDigits10 (n : ℕ) : ℕ :=
  (List.range 40).foldl (fun acc k => if 10 ^ k ≤ n then k + 1 else acc) 0

/-- Floor of log10 of the positive rational `a / b`. -/
def ratFloorLog10 (a b : ℕ) : ℤ :=
  let d : ℤ := (natDigits10 a : ℤ) - (natDigits10 b : ℤ)
  -- `10^(d-1) ≤ a/b < 10^(d+1)`; pick `d` or `d-1` by one sign-free test.
  if b * 10 ^ natDigits10 a ≤ a * 10 ^ natDigits10 b then d else d - 1

/-- The decimal with `p` significant digits nearest to `a / b` (both
positive), ties to even. -/
def reprCandidate (a b : ℕ) (p : ℕ) : ℚ :=
  let s : ℤ := (p : ℤ) - 1 - ratFloorLog10 a b
  if 0 ≤ s then
    mkRat (roundHalfEvenNat (a * 10 ^ s.toNat) b : ℤ) (10 ^ s.toNat)
  else
    mkRat ((roundHalfEvenNat a (b * 10 ^ (-s).toNat) : ℤ) * 10 ^ (-s).toNat) 1

/-- Exact value of `str(v)` for a positive binary64 value `a / b`: the
shortest decimal that rounds back to it. -/
def shortestReprPos (a b : ℕ) : ℚ :=
  match (List.range 17).findSome? (fun i =>
      if roundB64 (reprCandidate a b (i + 1)) = mkRat a b then
        some (reprCandidate a b (i + 1))
      else none) with
  | some c => c
  | none => mkRat a b

/-- pydantic's `Decimal` validation of a float: `Decimal(str(v))`, whose
value is the shortest round-tripping decimal (verified on pydantic
2.10.6). -/
def pydanticDecimalOfFloat (v : ℚ) : ℚ :=
  if v = 0 then 0
  else if v < 0 then -(shortestReprPos v.num.natAbs v.den)
  else shortestReprPos v.num.natAbs v.den

/-- Exact rational subtraction, written on numerators/denominators (the
value equals `a - b`). -/
def ratSub (a b : ℚ) : ℚ :=
  mkRat (a.num * (b.den : ℤ) - b.num * (a.den : ℤ)) (a.den * b.den)

/-- Python `abs` on a float value. -/
def pyAbs (q : ℚ) : ℚ := if q < 0 then -q else q

/-- IEEE-754 binary64 subtraction of two double values: the exact
difference, rounded to nearest-even. -/
def floatSub (a b : ℚ) : ℚ := roundB64 (ratSub a b)

/-- A rational is exactly representable in binary64 (a 53-bit dyadic,
disregarding the exponent range, which prices never leave). -/
def IsDyadic53 (q : ℚ) : Prop :=
  ∃ (m : ℤ) (e : ℕ), m.natAbs < 2 ^ 53 ∧ (q = mkRat m (2 ^ e) ∨ q = mkRat (m * 2 ^ e) 1)

/-! ## Data model

`PriceResult` is `models/models.py`.  The pydantic model has exactly the six
fields below; the `in_stock=` / `condition=` keyword arguments some adapters
pass are not declared fields and are ignored by the model.  `price` is the
`Decimal` field, carried here as an exact rational. -/

instance {ε α : Type} [DecidableEq ε] [DecidableEq α] : DecidableEq (Except ε α) := fun x y =>
  match x, y with
  | .ok a, .ok b =>
    if h : a = b then .isTrue (by rw [h]) else .isFalse (by simp [h])
  | .error a, .error b =>
    if h : a = b then .isTrue (by rw [h]) else .isFalse (by simp [h])
  | .ok _, .error _ => .isFalse (by simp)
  | .error _, .ok _ => .isFalse (by simp)

/-- The result of one vendor lookup (`models/models.py PriceResult`). -/
structure PriceResult where
  vendor_id : Str
  url : Option Str := none
  mpn : Option Str := none
  price : Option ℚ := none
  currency : Option Str := none
  found : Bool
deriving DecidableEq, Repr

/-- The `not_found` sentinel each adapter class declares: every optional
field absent, `found=False`. -/
def notFoundResult (vendor : Str) : PriceResult :=
  { vendor_id := vendor, found := false }

/-- `"AUD"`, the constant currency of every adapter. -/
def audCur : Option Str := some "AUD".toList

/-! ## Scorptec HTTP adapter (`scrapers/scorptec/scorptec_scraper_http.py`)

The HTTP / regex / BeautifulSoup layer is represented by `ScorptecResp` and
`ScorptecProduct`, holding exactly the values the code reads: the response
status, whether the `template:` regex matched, the first
`div.sli_ac_product` (if any) with its `data-sku` attribute, its tracker
link (if present; a missing link raises, which the enclosing `except`
converts to `not_found`), the decoded `url` query parameter of the tracker
link (if present), and the `div.price.sli_real_price` text (if present). -/

structure ScorptecProduct where
  dataSku : Str
  trackerLink : Option Str
  urlParam : Option Str
  priceText : Option Str
deriving DecidableEq, Repr

structure ScorptecResp where
  status : ℕ
  templateOk : Bool
  firstProduct : Option ScorptecProduct
deriving DecidableEq, Repr

/-- Price extraction used by the Scorptec HTTP adapter:
`float(re.sub(r'[^\d.]', '', price_text))` — the binary64 value. -/
def scorptecParsePrice? (pt : Str) : Option ℚ :=
  pyFloat? (stripNonDigitDot pt)

/-- The price the Scorptec adapter actually stores: the float above, run
through the `PriceResult` Decimal field's float→Decimal validation. -/
def scorptecStoredPrice? (pt : Str) : Option ℚ :=
  (scorptecParsePrice? pt).map pydanticDecimalOfFloat

/-- `ScorptecScraper.scrape` of `scorptec_scraper_http.py`.  `resp = error`
models an exception from the HTTP call; the whole body runs inside
`try/except` returning `not_found` on any exception. -/
def scorptecHttpScrape (resp : Except Unit ScorptecResp) (mpn : Str) : PriceResult :=
  let nf := notFoundResult "scorptec".toList
  match resp with
  | .error _ => nf
  | .ok r =>
    if r.status ≠ 200 then nf
    else if ¬ r.templateOk then nf
    else
      match r.firstProduct with
      | none => nf
      | some p =>
        if ¬ lowerEq (pyStrip p.dataSku) mpn then nf
        else
          match p.trackerLink with
          | none => nf  -- subscripting a missing link raises; caught by `except`
          | some href =>
            let finalUrl := match p.urlParam with | some u => u | none => href
            match p.priceText with
            | none => nf
            | some pt =>
              match scorptecParsePrice? pt with
              | none => nf  -- `float()` raised `ValueError`; caught by `except`
              | some price =>
                { vendor_id := "scorptec".toList, url := some finalUrl,
                  mpn := some mpn, price := some (pydanticDecimalOfFloat price),
                  currency := audCur, found := true }

/-! ## Mwave adapter (`scrapers/mwave_scraper.py`)

Only the HTTP call is inside `try/except`; everything after it can raise
(an `IndexError` from `split()[-1]` on empty text, a `ValueError` from
`float`), and such an exception propagates to the coordinator, hence the
`Except` result.  Inputs: whether the HTTP fetch succeeded, the `span.sku`
text (if the element exists) and the `div.divPriceNormal` text. -/

/-- The Mwave search URL built from the MPN. -/
def mwaveSearchUrl (mpn : Str) : Str :=
  "https://www.mwave.com.au/searchresult?button=go&w=".toList ++ mpn ++ "&cnt=1".toList

/-- `MwaveScraper.scrape_sync`. -/
def mwaveScrapeSync (httpOk : Bool) (skuText priceText : Option Str) (mpn : Str) :
    Except Unit PriceResult :=
  let nf := notFoundResult "mwave".toList
  if ¬ httpOk then .ok nf
  else
    match skuText with
    | none => .ok nf
    | some t =>
      match lastToken (pyStrip t) with
      | none => .error ()  -- `split()[-1]` raises IndexError
      | some tok =>
        if tok ≠ mpn then .ok nf
        else
          match priceText with
          | none => .ok nf
          | some pt =>
            match pyFloat? ((dropCommas (pyStrip pt)).drop 1) with
            | none => .error ()  -- `float()` raises ValueError
            | some price =>
              .ok { vendor_id := "mwave".toList, url := some (mwaveSearchUrl mpn),
                    mpn := some mpn, price := some (pydanticDecimalOfFloat price),
                    currency := audCur, found := true }

/-! ## eBay Playwright adapter (`scrapers/ebay/ebay_scraper_playwright.py`)

The product page is represented by the values `_scrape_product_page` and its
helpers read: the complete (label, value) text pairs of the
`ux-labels-values` item-specifics rows, the token captured by the
`MPN[:\s]+([A-Za-z0-9\-]+)` regex over the about-this-item text (if that
section exists and the regex matches), the main title text (if present),
and the texts of the price-selector elements in selector order. -/

structure EbayPage where
  specifics : List (Str × Str)
  aboutMpn : Option Str
  title : Option Str
  priceTexts : List Str
deriving DecidableEq, Repr

/-- `EbayScraper._validate_mpn`: item-specifics rows whose label mentions
"mpn" or "part number" are compared for case-insensitive equality; the
about-section capture likewise; finally the title is searched for the MPN
as a case-insensitive substring. -/
def ebayValidateMpn (page : EbayPage) (mpn : Str) : Bool :=
  page.specifics.any (fun lv =>
    (strContains (pyLower lv.1) "mpn".toList || strContains (pyLower lv.1) "part number".toList)
      && lowerEq mpn lv.2)
  || (match page.aboutMpn with
      | some t => lowerEq t mpn
      | none => false)
  || (match page.title with
      | some t => strContains (pyLower t) (pyLower mpn)
      | none => false)

/-- First match of `[\d,]+\.?\d*` in a comma-free string: the first digit
run, an optional dot, then further digits. -/
def firstPriceToken? (cs : Str) : Option Str :=
  let afterSkip := cs.dropWhile (fun c => !c.isDigit)
  match afterSkip with
  | [] => none
  | _ =>
    let ds := afterSkip.takeWhile Char.isDigit
    match afterSkip.dropWhile Char.isDigit with
    | '.' :: rest => some (ds ++ '.' :: rest.takeWhile Char.isDigit)
    | _ => some ds

/-- `EbayScraper._parse_price`: drop commas, match `[\d,]+\.?\d*`, `float`. -/
def ebayParsePrice? (priceText : Str) : Option ℚ :=
  match firstPriceToken? (dropCommas priceText) with
  | some tok => pyFloat? tok
  | none => none

/-- `EbayScraper._extract_price`: first price-selector text that parses. -/
def ebayExtractPrice? (page : EbayPage) : Option ℚ :=
  page.priceTexts.findSome? ebayParsePrice?

/-- `EbayScraper._scrape_product_page`; `none` models a page-load failure. -/
def ebayScrapeProductPage (page? : Option EbayPage) (productUrl : Str) (mpn : Str) :
    PriceResult :=
  let nf := notFoundResult "ebay_au".toList
  match page? with
  | none => nf
  | some page =>
    if ¬ ebayValidateMpn page mpn then nf
    else
      match ebayExtractPrice? page with
      | none => nf
      | some p =>
        { vendor_id := "ebay_au".toList, url := some productUrl,
          mpn := some mpn, price := some (pydanticDecimalOfFloat p),
          currency := audCur, found := true }

/-! ## JW Computers HTTP adapter (`scrapers/jwc/jw_computer_scraper_http.py`)

The Algolia JSON layer is represented by the values the code reads: the
HTTP status, the first `hits` array (if `results` is nonempty), and per hit
the `mpn` field, the numeric price after the dict unwrapping (a JSON number
is already a binary64 value), and the `url` field.  The whole body is in
`try/except`, so `resp = error` and every internal exception give
`not_found`. -/

structure JwcHit where
  mpn : Str
  finalPrice : Option ℚ
  url : Option Str
deriving DecidableEq, Repr

structure JwcResp where
  status : ℕ
  firstHits : Option (List JwcHit)
deriving DecidableEq, Repr

/-- Python `s.startswith("http")`. -/
def startsWithHttp (s : Str) : Bool := decide (s.take 4 = "http".toList)

/-- `JWComputersScraper.scrape` of `jw_computer_scraper_http.py`. -/
def jwcHttpScrape (resp : Except Unit JwcResp) (mpn : Str) : PriceResult :=
  let nf := notFoundResult "jw_computers".toList
  match resp with
  | .error _ => nf
  | .ok r =>
    if r.status ≠ 200 then nf
    else
      match r.firstHits with
      | none => nf            -- `results` empty
      | some [] => nf         -- `hits` empty
      | some (hit :: _) =>
        if hit.mpn = [] ∨ hit.mpn ≠ mpn then nf
        else
          match hit.finalPrice with
          | none => nf
          | some p =>
            if p = 0 then nf  -- `if not final_price` is also true for 0
            else
              let finalUrl := hit.url.map fun u =>
                if startsWithHttp u then u else "https://www.jw.com.au/".toList ++ u
              { vendor_id := "jw_computers".toList, url := finalUrl,
                mpn := some mpn, price := some p, currency := audCur, found := true }

/-! ## Fallback adapters
(`scorptec_scraper_fallback.py`, `jwc/jw_computer_scraper.py`,
`umart/umart_scraper.py` — all three have the same `scrape` body)

The primary and secondary outcomes are `Except` values (`error` = the inner
scraper raised).  The boolean in the result records whether the secondary
was invoked at all. -/

/-- The secondary leg: its result is returned verbatim; if it raises, the
`except` returns the wrapper's own `not_found` sentinel. -/
def fallbackSecondary (secondary : Except Unit PriceResult) (sentinel : PriceResult) :
    PriceResult :=
  match secondary with
  | .ok s => s
  | .error _ => sentinel

/-- The fallback `scrape`: try the primary; on `found` return its result
(secondary never invoked); on `found=False` or an exception run the
secondary. -/
def fallbackScrape (primary secondary : Except Unit PriceResult) (sentinel : PriceResult) :
    PriceResult × Bool :=
  match primary with
  | .ok r => if r.found then (r, false) else (fallbackSecondary secondary sentinel, true)
  | .error _ => (fallbackSecondary secondary sentinel, true)

/-! ## Coordinators (`scraper.py`)

An adapter invocation either raises (`error`), returns `None` (some
superseded adapters), or returns a `PriceResult`; `asyncio.gather(...,
return_exceptions=True)` collects one such outcome per task, **by task
index**, whatever the completion order.  `gatherFill` makes the by-index
placement explicit: results are written into a preallocated slot list as
tasks complete in an arbitrary order. -/

/-- One adapter call outcome: raised, returned `None`, or a result. -/
abbrev AdapterOutcome := Except Unit (Option PriceResult)

/-- A registered scraper: display name and behavior per MPN. -/
abbrev Scraper := Str × (Str → AdapterOutcome)

/-- Slot-placement semantics of `asyncio.gather`: starting from `n` empty
slots, each completing task `i` stores its outcome at index `i`; `order`
is the completion order. -/
def gatherFill {α : Type} (outs : List α) (order : List ℕ) : List (Option α) :=
  order.foldl (fun acc i => acc.set i outs[i]?) (List.replicate outs.length none)

/-- `scrape_mpn_single` (`scraper.py`): strip the MPN, run every registered
scraper, and return the gathered outcome list unchanged — exceptions and
`None`s included (the loop afterwards only logs). -/
def scrapeMpnSingle (scrapers : List Scraper) (mpn : Str) : List AdapterOutcome :=
  scrapers.map fun vs => vs.2 (pyStrip mpn)

/-- `scrape_single_mpn_async` (`scraper.py`): same fan-out (no strip), but
build a per-vendor dict in registration order, exceptions and falsy
results replaced by `None`. -/
def scrapeSingleMpnAsync (scrapers : List Scraper) (mpn : Str) :
    Str × List (Str × Option PriceResult) :=
  (mpn, scrapers.map fun vs =>
    (vs.1, match vs.2 mpn with
      | .error _ => none
      | .ok none => none
      | .ok (some r) => some r))

/-- `batch_scrape_mpns` (`scraper.py`): one bounded task per MPN; a
batch-level exception in task `i` (modelled by `itemFails i = true`) is
logged and its tuple dropped; all other tuples are kept in input order. -/
def batchScrapeMpns (mpns : List Str) (scrapers : List Scraper) (itemFails : ℕ → Bool) :
    List (Str × List (Str × Option PriceResult)) :=
  ((mpns.enum.map fun im =>
      if itemFails im.1 then Except.error ()
      else Except.ok (scrapeSingleMpnAsync scrapers im.2)).filterMap Except.toOption)

/-! ## Lowest-price selection (`write_results_to_csv`, `scraper.py` /
`main.py`)

The loop keeps the first strictly-smaller price over the dict in insertion
(= registration) order; entries that are `None` or have no price are
skipped.  `pyStr` is Python `str(...)` applied to the possibly-`None` URL. -/

/-- Python `str(x)` for an optional string (`str(None) = "None"`). -/
def pyStr (u : Option Str) : Str :=
  match u with
  | some s => s
  | none => "None".toList

/-- One iteration of the lowest-price loop in `write_results_to_csv`:
entries that are `None` or have no price are skipped; a strictly smaller
price replaces the accumulator. -/
def cheapestStep (acc : Option (Str × ℚ × Str)) (ve : Str × Option PriceResult) :
    Option (Str × ℚ × Str) :=
  match ve.2 with
  | some d =>
    match d.price with
    | some p =>
      match acc with
      | none => some (ve.1, p, pyStr d.url)
      | some best => if p < best.2.1 then some (ve.1, p, pyStr d.url) else acc
    | none => acc
  | none => acc

/-- The lowest-price accumulator loop of `write_results_to_csv`, over the
per-vendor dict in insertion (= registration) order. -/
def cheapestOfRow (entries : List (Str × Option PriceResult)) : Option (Str × ℚ × Str) :=
  entries.foldl cheapestStep none

/-- Spec-side: the better of two candidate (vendor, price, url) triples,
the earlier one winning ties. -/
def specBest (a b : Option (Str × ℚ × Str)) : Option (Str × ℚ × Str) :=
  match a, b with
  | none, b => b
  | some a, none => some a
  | some a, some b => if b.2.1 < a.2.1 then some b else some a

/-- Spec-side: the candidate an entry contributes — only `found=true`
entries with a present price participate. -/
def specFoundEntry (ve : Str × Option PriceResult) : Option (Str × ℚ × Str) :=
  match ve.2 with
  | some r =>
    if r.found then
      match r.price with
      | some p => some (ve.1, p, pyStr r.url)
      | none => none
    else none
  | none => none

/-- Spec-side `cheapest()`: minimum price among `found=true` entries, ties
to the earliest vendor in registration order, `none` if no vendor found
the item. -/
def specCheapest (entries : List (Str × Option PriceResult)) : Option (Str × ℚ × Str) :=
  entries.foldr (fun ve acc => specBest (specFoundEntry ve) acc) none

/-! ## Reconciler (`app.py process_and_save_result`)

The decision among inserting a new price-history record, refreshing the
latest record's timestamp, and doing nothing.  `latest` is the price of
`db.get_price_history(mpn, vendor)[0]` (the query orders by `scraped_at
DESC`), a SQLite REAL, i.e. a binary64 value; `price` is the caller's
`float(res.price)`, also a binary64 value; `none` when absent.  The
comparison `abs(latest_price - price) > 0.01` runs entirely in binary64:
the subtraction rounds to nearest double and the literal `0.01` denotes
the double nearest 1/100. -/

inductive DbAction where
  | insertNew
  | refreshTimestamp
  | noOp
deriving DecidableEq, Repr

/-- `process_and_save_result`, reduced to its decision: `found`/`price`
come from the vendor result, `latest` from the persistence layer; the
price-change test is the source's float comparison. -/
def processAndSaveResult (found : Bool) (price latest : Option ℚ) : DbAction :=
  if found = false ∨ price = none then .noOp
  else
    match price, latest with
    | some _, none => .insertNew
    | some p, some lp =>
      if roundB64 (mkRat 1 100) < pyAbs (floatSub lp p) then .insertNew
      else .refreshTimestamp
    | none, _ => .noOp

/-! ## Batch concurrency (`batch_scrape_mpns` semaphore)

A small-step semantics of the semaphore discipline: `asyncio.Semaphore(5)`,
acquired by `async with` before each per-MPN unit of work and released on
every exit path, normal or exceptional.  A state counts tasks not yet
started, tasks currently holding a permit, and finished tasks, plus the
free-permit count of the semaphore. -/

structure BatchSchedState where
  pending : ℕ
  running : ℕ
  done : ℕ
  sem : ℕ
deriving DecidableEq, Repr

/-- The initial state of a batch of `n` MPNs: nothing started, semaphore
at its full capacity of 5. -/
def initBatchState (n : ℕ) : BatchSchedState :=
  { pending := n, running := 0, done := 0, sem := 5 }

/-- One scheduler step: a pending task acquires a permit and starts, or a
running task finishes — normally or by raising — and in either case the
`async with` block releases its permit. -/
inductive BatchStep : BatchSchedState → BatchSchedState → Prop where
  | start (s : BatchSchedState) (hp : 0 < s.pending) (hs : 0 < s.sem) :
      BatchStep s ⟨s.pending - 1, s.running + 1, s.done, s.sem - 1⟩
  | finishOk (s : BatchSchedState) (hr : 0 < s.running) :
      BatchStep s ⟨s.pending, s.running - 1, s.done + 1, s.sem + 1⟩
  | finishExn (s : BatchSchedState) (hr : 0 < s.running) :
      BatchStep s ⟨s.pending, s.running - 1, s.done + 1, s.sem + 1⟩

/-- States reachable during a batch over `n` MPNs. -/
inductive BatchReachable (n : ℕ) : BatchSchedState → Prop where
  | init : BatchReachable n (initBatchState n)
  | step {s t : BatchSchedState} :
      BatchReachable n s → BatchStep s t → BatchReachable n t

/-- The spec's VendorResult invariant: `found=false` means price, url and
confirmed MPN are all absent; `found=true` means a price is present. -/
def ResultOk (r : PriceResult) : Prop :=
  (r.found = false → r.price = none ∧ r.url = none ∧ r.mpn = none) ∧
  (r.found = true → r.price ≠ none)

/-! # Theorems -/

/-- Any slot of the gather loop: slot `j` holds `outs[j]` once `j` has
completed, whatever the order of the other completions. -/
theorem gatherFill_getElem? {α : Type} (outs : List α) (order : List ℕ)
    (acc : List (Option α)) (j : ℕ) :
    (order.foldl (fun a i => a.set i outs[i]?) acc)[j]? =
      if j ∈ order ∧ j < acc.length then some outs[j]? else acc[j]? := by
  induction order generalizing acc with
  | nil => simp
  | cons i rest ih =>
    rw [List.foldl_cons, ih, List.length_set]
    by_cases hjr : j ∈ rest
    · by_cases hjl : j < acc.length
      · simp [hjr, hjl]
      · have hnone : acc[j]? = none := List.getElem?_eq_none (le_of_not_lt hjl)
        simp only [hjr, hjl, and_false, if_false, true_and, and_true, List.getElem?_set, hnone]
        split_ifs with h1 h2
        · exfalso; omega
        · rfl
        · rfl
    · by_cases hij : i = j
      · subst hij
        by_cases hjl : i < acc.length
        · simp [hjr, hjl, List.getElem?_set]
        · have hnone : acc[i]? = none := List.getElem?_eq_none (le_of_not_lt hjl)
          simp [hjr, hjl, List.getElem?_set, hnone]
      · have hmem : ¬ j ∈ i :: rest := by
          simp only [List.mem_cons, not_or]
          exact ⟨fun h => hij h.symm, hjr⟩
        simp only [hjr, false_and, if_false, hmem]
        rw [List.getElem?_set]
        simp [hij]

/-- If the completion order is a permutation of the task indices, the
gathered list is exactly the outcomes in task order. -/
theorem gatherFill_complete {α : Type} (outs : List α) (order : List ℕ)
    (h : order.Perm (List.range outs.length)) :
    gatherFill outs order = outs.map some := by
  apply List.ext_getElem?
  intro j
  rw [gatherFill, gatherFill_getElem?, List.length_replicate]
  by_cases hj : j < outs.length
  · have hmem : j ∈ order := h.mem_iff.2 (List.mem_range.2 hj)
    rw [if_pos ⟨hmem, hj⟩, List.getElem?_map, List.getElem?_eq_getElem hj]
    simp
  · rw [if_neg (by tauto), List.getElem?_replicate]
    rw [List.getElem?_map, List.getElem?_eq_none (le_of_not_lt hj)]
    simp [hj]

/-- C7: for every input MPN the single-query coordinator returns one entry
per registered adapter: the list has the registry's length, the entry at
each position is the outcome of the adapter registered at that position,
and filling slots in any completion order yields those same positions. -/
theorem C7_single_query_shape (scrapers : List Scraper) (mpn : Str) :
    (scrapeMpnSingle scrapers mpn).length = scrapers.length ∧
    (∀ i (hi : i < scrapers.length),
      (scrapeMpnSingle scrapers mpn)[i]? = some ((scrapers[i]).2 (pyStrip mpn))) ∧
    (∀ order, order.Perm (List.range scrapers.length) →
      gatherFill (scrapeMpnSingle scrapers mpn) order
        = (scrapeMpnSingle scrapers mpn).map some) := by
  refine ⟨by simp [scrapeMpnSingle], ?_, ?_⟩
  · intro i hi
    simp [scrapeMpnSingle, List.getElem?_map, List.getElem?_eq_getElem hi]
  · intro order hperm
    apply gatherFill_complete
    simpa [scrapeMpnSingle] using hperm

/-- C7 witness: a concrete registry of two stub adapters (one raising, one
returning `None`), evaluated through the coordinator, with completion
order reversed. -/
theorem C7_single_query_shape_witness :
    (scrapeMpnSingle [("A".toList, fun _ => .error ()), ("B".toList, fun _ => .ok none)]
        "X".toList).length = 2 ∧
    (scrapeMpnSingle [("A".toList, fun _ => .error ()), ("B".toList, fun _ => .ok none)]
        "X".toList)[0]? = some (Except.error ()) ∧
    gatherFill (scrapeMpnSingle [("A".toList, fun _ => .error ()), ("B".toList, fun _ => .ok none)]
        "X".toList) [1, 0]
      = (scrapeMpnSingle [("A".toList, fun _ => .error ()), ("B".toList, fun _ => .ok none)]
          "X".toList).map some := by
  refine ⟨(C7_single_query_shape _ _).1, ?_,
    (C7_single_query_shape _ _).2.2 [1, 0] (by decide)⟩
  exact (C7_single_query_shape
    [("A".toList, fun _ => .error ()), ("B".toList, fun _ => .ok none)] "X".toList).2.1 0
    (by decide)

/-- C1 counterexample: with three registered adapters of which the second
raises, the single-query coordinator's returned list carries the raw
exception at the second vendor's position — not a `found=false`
VendorResult as the claim states. -/
theorem C1_counterexample :
    (scrapeMpnSingle
      [("A".toList, fun _ => .ok (some { vendor_id := "a".toList, price := some 50, found := true })),
       ("B".toList, fun _ => .error ()),
       ("C".toList, fun _ => .ok (some (notFoundResult "c".toList)))] "X".toList)[1]?
      = some (Except.error ()) := by decide

/-- C1 (amended): an adapter exception is caught at the per-adapter
boundary — it does not disturb the length, the sibling entries, or the
fixed vendor positions — but the entry stored at the failing vendor's
position is the raw exception itself in `scrape_mpn_single`, and `None` in
`scrape_single_mpn_async`'s per-vendor dict, not a `found=false`
VendorResult. -/
theorem C1_exception_slot (scrapers : List Scraper) (mpn : Str) (i : ℕ)
    (hi : i < scrapers.length)
    (herr : ∀ s, (scrapers[i]).2 s = .error ()) :
    (scrapeMpnSingle scrapers mpn).length = scrapers.length ∧
    (scrapeMpnSingle scrapers mpn)[i]? = some (Except.error ()) ∧
    (∀ j (hj : j < scrapers.length), j ≠ i →
      (scrapeMpnSingle scrapers mpn)[j]? = some ((scrapers[j]).2 (pyStrip mpn))) ∧
    ((scrapeSingleMpnAsync scrapers mpn).2)[i]? = some ((scrapers[i]).1, none) := by
  refine ⟨by simp [scrapeMpnSingle], ?_, ?_, ?_⟩
  · simp [scrapeMpnSingle, List.getElem?_map, List.getElem?_eq_getElem hi, herr]
  · intro j hj _
    simp [scrapeMpnSingle, List.getElem?_map, List.getElem?_eq_getElem hj]
  · simp [scrapeSingleMpnAsync, List.getElem?_map, List.getElem?_eq_getElem hi, herr]

/-- C1 amended witness: the three-adapter registry with the second adapter
always raising, at MPN `"X"`. -/
theorem C1_exception_slot_witness :
    (scrapeMpnSingle
      [("A".toList, fun _ => .ok (some { vendor_id := "a".toList, price := some 50, found := true })),
       ("B".toList, fun _ => .error ())] "X".toList).length = 2 ∧
    (scrapeMpnSingle
      [("A".toList, fun _ => .ok (some { vendor_id := "a".toList, price := some 50, found := true })),
       ("B".toList, fun _ => .error ())] "X".toList)[1]? = some (Except.error ()) ∧
    ((scrapeSingleMpnAsync
      [("A".toList, fun _ => .ok (some { vendor_id := "a".toList, price := some 50, found := true })),
       ("B".toList, fun _ => .error ())] "X".toList).2)[1]? = some ("B".toList, none) := by
  have h := C1_exception_slot
    [("A".toList, fun _ => .ok (some { vendor_id := "a".toList, price := some 50, found := true })),
     ("B".toList, fun _ => .error ())] "X".toList 1 (by decide) (fun _ => rfl)
  exact ⟨h.1, h.2.1, h.2.2.2⟩

/-- Filtering the `error` outcomes of an if-guarded map keeps exactly the
unguarded images, in order. -/
theorem filterMap_guard_eq {α β : Type} (p : α → Bool) (f : α → β) (l : List α) :
    (l.map fun a => if p a then Except.error () else Except.ok (f a)).filterMap
        Except.toOption
      = (l.filter fun a => !p a).map f := by
  induction l with
  | nil => rfl
  | cons a l ih =>
    by_cases hpa : p a = true
    · simp [hpa, List.filterMap_cons, Except.toOption, ih]
    · simp only [Bool.not_eq_true] at hpa
      simp [hpa, List.filterMap_cons, Except.toOption, ih]

/-- C8: the batch coordinator emits exactly one `(mpn, per-vendor results)`
pair per non-failing MPN task, in input order: at most `N` pairs, the MPN
column a sublist of the input, every non-failing MPN's pair present, and
the output characterized as the input with exactly the failing positions
dropped. -/
theorem C8_batch_shape (mpns : List Str) (scrapers : List Scraper) (itemFails : ℕ → Bool) :
    (batchScrapeMpns mpns scrapers itemFails).length ≤ mpns.length ∧
    ((batchScrapeMpns mpns scrapers itemFails).map Prod.fst).Sublist mpns ∧
    (∀ i (hi : i < mpns.length), itemFails i = false →
      scrapeSingleMpnAsync scrapers (mpns[i]) ∈ batchScrapeMpns mpns scrapers itemFails) ∧
    batchScrapeMpns mpns scrapers itemFails
      = (mpns.enum.filter fun im => !itemFails im.1).map
          (fun im => scrapeSingleMpnAsync scrapers im.2) := by
  have heq : batchScrapeMpns mpns scrapers itemFails
      = (mpns.enum.filter fun im => !itemFails im.1).map
          (fun im => scrapeSingleMpnAsync scrapers im.2) := by
    unfold batchScrapeMpns
    exact filterMap_guard_eq _ _ _
  refine ⟨?_, ?_, ?_, heq⟩
  · rw [heq]
    calc ((mpns.enum.filter fun im => !itemFails im.1).map
            (fun im => scrapeSingleMpnAsync scrapers im.2)).length
        = (mpns.enum.filter fun im => !itemFails im.1).length := List.length_map _ _
      _ ≤ mpns.enum.length := List.length_filter_le _ _
      _ = mpns.length := List.enum_length
  · rw [heq]
    have h1 : ((mpns.enum.filter fun im => !itemFails im.1).map
          (fun im => scrapeSingleMpnAsync scrapers im.2)).map Prod.fst
        = (mpns.enum.filter fun im => !itemFails im.1).map Prod.snd := by
      rw [List.map_map]; rfl
    rw [h1]
    have h2 : (mpns.enum.filter fun im => !itemFails im.1).Sublist mpns.enum :=
      List.filter_sublist _
    have h3 := h2.map Prod.snd
    rwa [List.enum_map_snd] at h3
  · intro i hi hok
    rw [heq]
    have hlen : i < mpns.enum.length := by simpa [List.enum_length] using hi
    have hmem : (i, mpns[i]) ∈ mpns.enum := by
      have hg := List.getElem_mem hlen
      rwa [List.getElem_enum] at hg
    have hfil : (i, mpns[i]) ∈ mpns.enum.filter (fun im => !itemFails im.1) :=
      List.mem_filter.2 ⟨hmem, by simp [hok]⟩
    exact List.mem_map_of_mem (fun im => scrapeSingleMpnAsync scrapers im.2) hfil

/-- C8 witness: three MPNs with the middle batch task failing — the first
and third pairs survive in order. -/
theorem C8_batch_shape_witness :
    (batchScrapeMpns ["m1".toList, "m2".toList, "m3".toList] [] (fun i => decide (i = 1))).length ≤ 3 ∧
    scrapeSingleMpnAsync [] "m3".toList
      ∈ batchScrapeMpns ["m1".toList, "m2".toList, "m3".toList] [] (fun i => decide (i = 1)) ∧
    batchScrapeMpns ["m1".toList, "m2".toList, "m3".toList] [] (fun i => decide (i = 1))
      = [("m1".toList, []), ("m3".toList, [])] := by
  have h := C8_batch_shape ["m1".toList, "m2".toList, "m3".toList] [] (fun i => decide (i = 1))
  exact ⟨h.1, h.2.2.1 2 (by decide) (by decide), h.2.2.2.trans (by decide)⟩

/-- `specBest` ignores an absent right candidate. -/
theorem specBest_none_right (a : Option (Str × ℚ × Str)) : specBest a none = a := by
  cases a <;> rfl

/-- `specBest` — minimum with ties to the left — is associative. -/
theorem specBest_assoc (a b c : Option (Str × ℚ × Str)) :
    specBest (specBest a b) c = specBest a (specBest b c) := by
  rcases a with _ | ⟨va, pa, ua⟩
  · rfl
  · rcases b with _ | ⟨vb, pb, ub⟩
    · rfl
    · rcases c with _ | ⟨vc, pc, uc⟩
      · simp [specBest_none_right]
      · by_cases h1 : pb < pa <;> by_cases h2 : pc < pb <;> by_cases h3 : pc < pa <;>
          simp only [specBest, h1, h2, h3, if_true, if_false] <;>
          first
            | rfl
            | (exfalso; linarith)

/-- Under the found/price invariant for a single entry, the source loop's
step agrees with taking the better of the accumulator and the entry's
spec-side candidate. -/
theorem cheapestStep_eq_specBest (acc : Option (Str × ℚ × Str))
    (ve : Str × Option PriceResult)
    (hve : ∀ r, ve.2 = some r → (r.found = true ↔ r.price ≠ none)) :
    cheapestStep acc ve = specBest acc (specFoundEntry ve) := by
  rcases ve with ⟨v, d⟩
  rcases d with _ | r
  · cases acc <;> rfl
  · rcases hr : r.price with _ | p
    · have hf : r.found = false := by
        rcases hfound : r.found with _ | _
        · rfl
        · exact absurd hr ((hve r rfl).1 hfound)
      cases acc <;> simp [cheapestStep, specFoundEntry, hr, hf, specBest]
    · have hf : r.found = true := (hve r rfl).2 (by simp [hr])
      cases acc <;> simp [cheapestStep, specFoundEntry, hr, hf, specBest]

/-- The source fold from any accumulator equals `specBest` of the
accumulator and the spec-side minimum of the remaining entries. -/
theorem cheapest_foldl_eq (entries : List (Str × Option PriceResult))
    (hinv : ∀ v r, (v, some r) ∈ entries → (r.found = true ↔ r.price ≠ none)) :
    ∀ acc, entries.foldl cheapestStep acc = specBest acc (specCheapest entries) := by
  induction entries with
  | nil => intro acc; simp [specCheapest, specBest_none_right]
  | cons ve l ih =>
    intro acc
    have hhead : ∀ r, ve.2 = some r → (r.found = true ↔ r.price ≠ none) := by
      intro r hr
      exact hinv ve.1 r (by rw [show (ve.1, some r) = ve by rw [← hr]]; exact List.mem_cons_self _ _)
    have htail : ∀ v r, (v, some r) ∈ l → (r.found = true ↔ r.price ≠ none) := by
      intro v r hm
      exact hinv v r (List.mem_cons_of_mem _ hm)
    rw [List.foldl_cons, cheapestStep_eq_specBest acc ve hhead, ih htail,
      show specCheapest (ve :: l) = specBest (specFoundEntry ve) (specCheapest l) from rfl,
      specBest_assoc]

/-- Under the invariant, the spec-side minimum is absent exactly when
every present entry has `found=false`. -/
theorem specCheapest_eq_none_iff (entries : List (Str × Option PriceResult))
    (hinv : ∀ v r, (v, some r) ∈ entries → (r.found = true ↔ r.price ≠ none)) :
    specCheapest entries = none ↔ ∀ v r, (v, some r) ∈ entries → r.found = false := by
  induction entries with
  | nil => simp [specCheapest]
  | cons ve l ih =>
    have htail : ∀ v r, (v, some r) ∈ l → (r.found = true ↔ r.price ≠ none) := by
      intro v r hm
      exact hinv v r (List.mem_cons_of_mem _ hm)
    have hcons : specCheapest (ve :: l) = specBest (specFoundEntry ve) (specCheapest l) := rfl
    have hsplit : specCheapest (ve :: l) = none ↔
        specFoundEntry ve = none ∧ specCheapest l = none := by
      rw [hcons]
      rcases specFoundEntry ve with _ | x
      · rcases specCheapest l with _ | y <;> simp [specBest]
      · rcases specCheapest l with _ | y
        · simp [specBest]
        · simp only [specBest]
          split_ifs <;> simp
    rw [hsplit, ih htail]
    constructor
    · rintro ⟨h1, h2⟩ v r hm
      rcases List.mem_cons.1 hm with hhd | htl
      · rcases ve with ⟨v0, d0⟩
        obtain ⟨hv, hd⟩ := Prod.mk.injEq .. ▸ hhd.symm
        rcases hfound : r.found with _ | _
        · rfl
        · exfalso
          have hpr : r.price ≠ none :=
            (hinv v r hm).1 hfound
          rcases hp : r.price with _ | p
          · exact hpr hp
          · have : specFoundEntry (v0, d0) ≠ none := by
              simp [specFoundEntry, hd, hfound, hp]
            exact this h1
      · exact h2 v r htl
    · intro h
      constructor
      · rcases ve with ⟨v0, d0⟩
        rcases d0 with _ | r0
        · rfl
        · have hf0 : r0.found = false := h v0 r0 (List.mem_cons_self _ _)
          simp [specFoundEntry, hf0]
      · intro v r hm
        exact h v r (List.mem_cons_of_mem _ hm)

/-- C5: over a per-vendor result row respecting the data-model invariant
(`found=true` iff a price is present), the lowest-price loop of
`write_results_to_csv` computes exactly the spec's `cheapest()`: the
minimum price among `found=true` entries, ties to the earliest vendor in
registration order, and `none` exactly when no vendor found the item. -/
theorem C5_cheapest_correct (entries : List (Str × Option PriceResult))
    (hinv : ∀ v r, (v, some r) ∈ entries → (r.found = true ↔ r.price ≠ none)) :
    cheapestOfRow entries = specCheapest entries ∧
    (cheapestOfRow entries = none ↔ ∀ v r, (v, some r) ∈ entries → r.found = false) := by
  have heq : cheapestOfRow entries = specCheapest entries := by
    rw [cheapestOfRow, cheapest_foldl_eq entries hinv none]
    rfl
  exact ⟨heq, heq ▸ specCheapest_eq_none_iff entries hinv⟩

/-- C5 witness: the spec's own example row — A not found, B at 100, C at
95 — yields `(C, 95)` with C's url. -/
theorem C5_cheapest_correct_witness :
    cheapestOfRow
      [("A".toList, some (notFoundResult "a".toList)),
       ("B".toList, some { vendor_id := "b".toList, url := some "ub".toList,
                           price := some 100, found := true }),
       ("C".toList, some { vendor_id := "c".toList, url := some "uc".toList,
                           price := some 95, found := true })]
      = specCheapest
      [("A".toList, some (notFoundResult "a".toList)),
       ("B".toList, some { vendor_id := "b".toList, url := some "ub".toList,
                           price := some 100, found := true }),
       ("C".toList, some { vendor_id := "c".toList, url := some "uc".toList,
                           price := some 95, found := true })] ∧
    cheapestOfRow
      [("A".toList, some (notFoundResult "a".toList)),
       ("B".toList, some { vendor_id := "b".toList, url := some "ub".toList,
                           price := some 100, found := true }),
       ("C".toList, some { vendor_id := "c".toList, url := some "uc".toList,
                           price := some 95, found := true })]
      = some ("C".toList, 95, "uc".toList) := by
  have h := C5_cheapest_correct
    [("A".toList, some (notFoundResult "a".toList)),
     ("B".toList, some { vendor_id := "b".toList, url := some "ub".toList,
                         price := some 100, found := true }),
     ("C".toList, some { vendor_id := "c".toList, url := some "uc".toList,
                         price := some 95, found := true })]
    (by
      intro v r hm
      fin_cases hm <;> simp [notFoundResult])
  exact ⟨h.1, by decide⟩

/-- C4: the fallback adapter tries the primary first; when the primary
returns `found=true` that result is returned and the secondary is never
invoked; when the primary raises or returns `found=false`, the secondary
is invoked and any result it returns — found or not — is returned
verbatim. -/
theorem C4_fallback_contract (primary secondary : Except Unit PriceResult)
    (sentinel : PriceResult) :
    (∀ r : PriceResult, primary = .ok r → r.found = true →
      fallbackScrape primary secondary sentinel = (r, false)) ∧
    ((primary = .error () ∨ ∃ r : PriceResult, primary = .ok r ∧ r.found = false) →
      (fallbackScrape primary secondary sentinel).2 = true ∧
      ∀ s : PriceResult, secondary = .ok s →
        (fallbackScrape primary secondary sentinel).1 = s) := by
  constructor
  · rintro r rfl hf
    simp [fallbackScrape, hf]
  · rintro (rfl | ⟨r, rfl, hf⟩)
    · refine ⟨rfl, ?_⟩
      rintro s rfl
      rfl
    · refine ⟨by simp [fallbackScrape, hf], ?_⟩
      rintro s rfl
      simp [fallbackScrape, hf, fallbackSecondary]

/-- C4 witness: on a found primary the secondary stays uninvoked; on a
raising primary the secondary's `found=false` result comes back
verbatim. -/
theorem C4_fallback_contract_witness :
    fallbackScrape
        (.ok { vendor_id := "scorptec".toList, price := some 245, found := true })
        (.ok (notFoundResult "scorptec".toList)) (notFoundResult "scorptec".toList)
      = ({ vendor_id := "scorptec".toList, price := some 245, found := true }, false) ∧
    (fallbackScrape (.error ()) (.ok (notFoundResult "scorptec".toList))
        (notFoundResult "scorptec".toList)).2 = true ∧
    (fallbackScrape (.error ()) (.ok (notFoundResult "scorptec".toList))
        (notFoundResult "scorptec".toList)).1 = notFoundResult "scorptec".toList := by
  refine ⟨(C4_fallback_contract _ _ _).1 _ rfl rfl, ?_, ?_⟩
  · exact ((C4_fallback_contract (.error ()) (.ok (notFoundResult "scorptec".toList))
      (notFoundResult "scorptec".toList)).2 (Or.inl rfl)).1
  · exact ((C4_fallback_contract (.error ()) (.ok (notFoundResult "scorptec".toList))
      (notFoundResult "scorptec".toList)).2 (Or.inl rfl)).2 _ rfl

/-- C6 counterexample: prior price 100.00, new observed price 100.01 — a
difference of exactly 0.01, which is not strictly more than 0.01, so the
claim requires `RefreshTimestamp`; but the code compares in binary64,
where `abs(100.0 - float('100.01')) = 0.010000000000005116` exceeds the
double nearest 0.01, and inserts a new record.  (The reconcile step
receives `float(Decimal('100.01'))`, modelled as `roundB64 (mkRat 10001
100)`, against the stored REAL 100.0.) -/
theorem C6_counterexample :
    ¬ (1 / 100 < |(100 : ℚ) - mkRat 10001 100|) ∧
    processAndSaveResult true (some (roundB64 (mkRat 10001 100))) (some 100)
      = .insertNew := by
  constructor
  · rw [not_lt]
    have h1 : (100 : ℚ) - mkRat 10001 100 = -(1 / 100) := by
      rw [Rat.mkRat_eq_div]
      norm_num
    rw [h1, abs_neg, abs_of_nonneg (show (0 : ℚ) ≤ 1 / 100 by norm_num)]
  · decide

/-- C6 (amended): when the vendor found the item, `NoOp` exactly when the
new price is absent; otherwise the decision is made by the source's
binary64 comparison — `InsertNew` exactly when no prior record exists or
`|fl(prior) − fl(new)|`, computed in doubles, exceeds the double nearest
0.01, and `RefreshTimestamp` otherwise.  Away from the one-cent boundary
this agrees with the claim's exact rule: prior 100.00 with new 100.004
refreshes and prior 100.00 with new 101.00 inserts, as the claim's
examples say; but at a difference of exactly 0.01 (prior 100.00, new
100.01) the float comparison inserts where the exact rule would
refresh. -/
theorem C6_reconcile_decision (price latest : Option ℚ) :
    (processAndSaveResult true price latest = .noOp ↔ price = none) ∧
    (processAndSaveResult true price latest = .insertNew ↔
      ∃ p, price = some p ∧
        (latest = none ∨ ∃ lp, latest = some lp ∧
          roundB64 (mkRat 1 100) < pyAbs (floatSub lp p))) ∧
    (processAndSaveResult true price latest = .refreshTimestamp ↔
      ∃ p lp, price = some p ∧ latest = some lp ∧
        pyAbs (floatSub lp p) ≤ roundB64 (mkRat 1 100)) ∧
    processAndSaveResult true (some (roundB64 (mkRat 25001 250))) (some 100)
      = .refreshTimestamp ∧
    processAndSaveResult true (some 101) (some 100) = .insertNew ∧
    processAndSaveResult true (some (roundB64 (mkRat 10001 100))) (some 100)
      = .insertNew := by
  have hnoprior : ∀ p : ℚ, processAndSaveResult true (some p) none = .insertNew := by
    intro p
    simp only [processAndSaveResult]
    rw [if_neg (by simp)]
  have hred : ∀ p lp : ℚ, processAndSaveResult true (some p) (some lp)
      = if roundB64 (mkRat 1 100) < pyAbs (floatSub lp p) then DbAction.insertNew
        else DbAction.refreshTimestamp := by
    intro p lp
    simp only [processAndSaveResult]
    rw [if_neg (by simp)]
  refine ⟨?_, ?_, ?_, by decide, by decide, by decide⟩
  · rcases price with _ | p
    · simp [processAndSaveResult]
    · rcases latest with _ | lp
      · rw [hnoprior]; simp
      · rw [hred]; split_ifs <;> simp
  · rcases price with _ | p
    · simp [processAndSaveResult]
    · rcases latest with _ | lp
      · rw [hnoprior]; simp
      · rw [hred]
        split_ifs with hlt
        · simp only [true_iff]
          exact ⟨p, rfl, Or.inr ⟨lp, rfl, hlt⟩⟩
        · simp only [reduceCtorEq, false_iff]
          rintro ⟨p2, hp2, hcase⟩
          obtain rfl := Option.some.inj hp2
          rcases hcase with hno | ⟨lp2, hlp2, hgt⟩
          · exact hno
          · obtain rfl := Option.some.inj hlp2
            exact hlt hgt
  · rcases price with _ | p
    · simp [processAndSaveResult]
    · rcases latest with _ | lp
      · rw [hnoprior]
        simp
      · rw [hred]
        split_ifs with hlt
        · simp only [reduceCtorEq, false_iff]
          rintro ⟨p2, lp2, hp2, hlp2, hle⟩
          obtain rfl := Option.some.inj hp2
          obtain rfl := Option.some.inj hlp2
          exact absurd hlt (not_lt.2 hle)
        · simp only [true_iff]
          exact ⟨p, lp, rfl, rfl, not_lt.1 hlt⟩

/-- C9: in any state reachable by the batch scheduler, the number of
per-MPN units of work holding a permit never exceeds the semaphore's
capacity of 5, and the permit accounting `running + free = 5` is an
invariant (every exit path — normal or exceptional — releases). -/
theorem C9_semaphore_bound (n : ℕ) (s : BatchSchedState) (h : BatchReachable n s) :
    s.running ≤ 5 ∧ s.running + s.sem = 5 := by
  induction h with
  | init => simp [initBatchState]
  | step _ hstep ih =>
    rcases hstep with ⟨hp, hs⟩ | hr | hr <;>
      constructor <;> simp only [] <;> omega

/-- C9 witness: a batch of 3 MPNs after one task has started — one permit
held, four free. -/
theorem C9_semaphore_bound_witness :
    (⟨2, 1, 0, 4⟩ : BatchSchedState).running ≤ 5 ∧
    (⟨2, 1, 0, 4⟩ : BatchSchedState).running + (⟨2, 1, 0, 4⟩ : BatchSchedState).sem = 5 :=
  C9_semaphore_bound 3 _
    (BatchReachable.step BatchReachable.init
      (BatchStep.start (initBatchState 3) (by decide) (by decide)))

/-- C2 counterexample: the eBay adapter reports `found=true` for MPN
`"12100"` on a product page that records no MPN/SKU field at all (no item
specifics, no about-section capture) and whose title `"Intel BX8071512100F
CPU"` is not equal to the MPN even ignoring case — it merely contains it
as a substring. -/
theorem C2_counterexample :
    (ebayScrapeProductPage
        (some { specifics := [], aboutMpn := none,
                title := some "Intel BX8071512100F CPU".toList,
                priceTexts := ["AU $399.00".toList] })
        "https://www.ebay.com.au/itm/1".toList "12100".toList).found = true ∧
    lowerEq "Intel BX8071512100F CPU".toList "12100".toList = false ∧
    strContains (pyLower "Intel BX8071512100F CPU".toList)
      (pyLower "12100".toList) = true := by decide

/-- C2 (amended): the Scorptec, Mwave and JW Computers adapters report
`found=true` only when the vendor's recorded SKU/MPN field equals the
input MPN exactly (Scorptec up to letter case, the others
case-sensitively); the eBay adapter accepts, besides an exact (up to
case) item-specifics or about-section match, a mere case-insensitive
substring occurrence of the MPN in the listing title. -/
theorem C2_match_policy :
    (∀ resp mpn, (scorptecHttpScrape resp mpn).found = true →
      ∃ r p, resp = .ok r ∧ r.firstProduct = some p ∧
        lowerEq (pyStrip p.dataSku) mpn = true) ∧
    (∀ ok sku pt mpn r, mwaveScrapeSync ok sku pt mpn = .ok r → r.found = true →
      ∃ t, sku = some t ∧ lastToken (pyStrip t) = some mpn) ∧
    (∀ resp mpn, (jwcHttpScrape resp mpn).found = true →
      ∃ r hit rest, resp = .ok r ∧ r.firstHits = some (hit :: rest) ∧ hit.mpn = mpn) ∧
    (∀ page? url mpn, (ebayScrapeProductPage page? url mpn).found = true →
      ∃ pg, page? = some pg ∧ ebayValidateMpn pg mpn = true) ∧
    (∀ pg mpn, ebayValidateMpn pg mpn = true →
      (∃ lv, lv ∈ pg.specifics ∧
          (strContains (pyLower lv.1) "mpn".toList
            || strContains (pyLower lv.1) "part number".toList) = true ∧
          lowerEq mpn lv.2 = true) ∨
      (∃ t, pg.aboutMpn = some t ∧ lowerEq t mpn = true) ∨
      (∃ t, pg.title = some t ∧ strContains (pyLower t) (pyLower mpn) = true)) := by
  refine ⟨?_, ?_, ?_, ?_, ?_⟩
  · intro resp mpn h
    cases resp with
    | error e => simp [scorptecHttpScrape, notFoundResult] at h
    | ok r =>
      unfold scorptecHttpScrape at h
      repeat' split at h
      all_goals simp_all [notFoundResult]
  · intro ok sku pt mpn r hres h
    unfold mwaveScrapeSync at hres
    repeat' split at hres
    all_goals first
      | exact Except.noConfusion hres
      | (obtain rfl := Except.ok.inj hres
         simp_all [notFoundResult])
  · intro resp mpn h
    cases resp with
    | error e => simp [jwcHttpScrape, notFoundResult] at h
    | ok r =>
      unfold jwcHttpScrape at h
      repeat' split at h
      all_goals simp_all [notFoundResult]
  · intro page? url mpn h
    cases page? with
    | none => simp [ebayScrapeProductPage, notFoundResult] at h
    | some pg =>
      unfold ebayScrapeProductPage at h
      repeat' split at h
      all_goals simp_all [notFoundResult]
  · intro pg mpn h
    unfold ebayValidateMpn at h
    simp only [Bool.or_eq_true, List.any_eq_true, Bool.and_eq_true] at h
    rcases h with (⟨lv, hmem, hlab, hval⟩ | hab) | hti
    · exact Or.inl ⟨lv, hmem, by rw [Bool.or_eq_true]; exact hlab, hval⟩
    · refine Or.inr (Or.inl ?_)
      rcases hA : pg.aboutMpn with _ | t
      · rw [hA] at hab
        exact absurd hab (by simp)
      · rw [hA] at hab
        exact ⟨t, rfl, hab⟩
    · refine Or.inr (Or.inr ?_)
      rcases hT : pg.title with _ | t
      · rw [hT] at hti
        exact absurd hti (by simp)
      · rw [hT] at hti
        exact ⟨t, rfl, hti⟩

/-- C2 amended witness: concrete found cases for the Scorptec leg (SKU
matching up to case) and the eBay validator's title-substring leg. -/
theorem C2_match_policy_witness :
    (∃ r p, (Except.ok (⟨200, true, some ⟨"bx8071512100f".toList, some "trk".toList,
          some "u".toList, some "$245.00".toList⟩⟩ : ScorptecResp)
            : Except Unit ScorptecResp) = .ok r ∧
        r.firstProduct = some p ∧
        lowerEq (pyStrip p.dataSku) "BX8071512100F".toList = true) ∧
    ((∃ lv, lv ∈ ([] : List (Str × Str)) ∧
        (strContains (pyLower lv.1) "mpn".toList
          || strContains (pyLower lv.1) "part number".toList) = true ∧
        lowerEq "12100".toList lv.2 = true) ∨
      (∃ t, (none : Option Str) = some t ∧ lowerEq t "12100".toList = true) ∨
      (∃ t, (some "Intel BX8071512100F CPU".toList : Option Str) = some t ∧
        strContains (pyLower t) (pyLower "12100".toList) = true)) := by
  constructor
  · exact C2_match_policy.1
      (.ok ⟨200, true, some ⟨"bx8071512100f".toList, some "trk".toList,
        some "u".toList, some "$245.00".toList⟩⟩) "BX8071512100F".toList (by decide)
  · exact C2_match_policy.2.2.2.2
      { specifics := [], aboutMpn := none,
        title := some "Intel BX8071512100F CPU".toList, priceTexts := [] }
      "12100".toList (by decide)

/-- C3 counterexample: the adapter's parse is not an exact decimal parse
of the price text — it goes through Python `float`.  The price text
`"$245.35000000000000001"` denotes the exact decimal
24535000000000000001/10^17, but `float` collapses it to the binary64
value of 245.35, whose `str()` the Decimal field stores: the VendorResult
carries exactly 4907/20, a different rational from the text's exact
decimal value. -/
theorem C3_counterexample :
    parseDecExact? (stripNonDigitDot "$245.35000000000000001".toList)
      = some (mkRat 24535000000000000001 100000000000000000) ∧
    (scorptecHttpScrape
        (.ok ⟨200, true, some ⟨"x9".toList, some "t".toList, none,
          some "$245.35000000000000001".toList⟩⟩)
        "X9".toList).price
      = some (mkRat 4907 20) ∧
    mkRat 4907 20 ≠ mkRat 24535000000000000001 100000000000000000 := by decide

/-- C3 (amended): adapters strip currency symbols and thousands
separators, then parse with Python `float` — a binary64 value — which the
`PriceResult` Decimal field converts via `str()`, the shortest decimal
that round-trips.  For price texts within the float's 17-digit precision
the stored Decimal therefore equals the text's exact decimal value —
245.00 and even the non-dyadic 245.35 are stored with no cent-level
drift, across the Scorptec, eBay and Mwave pipelines (the float stage
itself does hold a different rational for 245.35) — but the value passes
through binary64, and a text beyond that precision is not stored
exactly. -/
theorem C3_price_parse_via_float :
    stripNonDigitDot "AU $2,453.35".toList = "2453.35".toList ∧
    dropCommas (pyStrip " $2,453.35 ".toList) = "$2453.35".toList ∧
    scorptecStoredPrice? "$245.00".toList = some 245 ∧
    scorptecStoredPrice? "$245.35".toList = some (mkRat 4907 20) ∧
    (ebayParsePrice? "AU $245.35".toList).map pydanticDecimalOfFloat
      = some (mkRat 4907 20) ∧
    (pyFloat? ((dropCommas (pyStrip "$245.35".toList)).drop 1)).map pydanticDecimalOfFloat
      = some (mkRat 4907 20) ∧
    scorptecParsePrice? "$245.35".toList = some (mkRat 8632485691994931 35184372088832) ∧
    mkRat 8632485691994931 35184372088832 ≠ mkRat 4907 20 ∧
    (∀ s, scorptecParsePrice? s = (parseDecExact? (stripNonDigitDot s)).map roundB64) ∧
    (∀ s, scorptecStoredPrice? s = (scorptecParsePrice? s).map pydanticDecimalOfFloat) ∧
    scorptecStoredPrice? "$245.35000000000000001".toList = some (mkRat 4907 20) := by
  exact ⟨by decide, by decide, by decide, by decide, by decide, by decide, by decide,
    by decide, fun s => rfl, fun s => rfl, by decide⟩

/-- Characters surviving `pyStrip` were in the original string. -/
theorem pyStrip_subset (s : Str) : pyStrip s ⊆ s := by
  intro c hc
  unfold pyStrip at hc
  rw [List.mem_reverse] at hc
  have h1 := (List.dropWhile_sublist _).subset hc
  rw [List.mem_reverse] at h1
  exact (List.dropWhile_sublist _).subset h1

/-- A decimal literal with no minus sign never parses as negative. -/
theorem parseDecParts?_neg_eq_false (s : Str) (hs : '-' ∉ s) (neg : Bool) (n k : ℕ)
    (h : parseDecParts? s = some (neg, n, k)) : neg = false := by
  have hs2 : '-' ∉ pyStrip s := fun hm => hs (pyStrip_subset s hm)
  unfold parseDecParts? at h
  repeat' split at h
  all_goals simp_all

/-- Exact decimal parse of a minus-free string is non-negative. -/
theorem parseDecExact?_nonneg (s : Str) (hs : '-' ∉ s) (q : ℚ)
    (h : parseDecExact? s = some q) : 0 ≤ q := by
  unfold parseDecExact? at h
  rcases hp : parseDecParts? s with _ | ⟨neg, n, k⟩
  · rw [hp] at h
    exact absurd h (by simp)
  · rw [hp] at h
    simp only [Option.map_some'] at h
    obtain rfl : _ = q := Option.some.inj h
    have hneg : neg = false := parseDecParts?_neg_eq_false s hs neg n k hp
    subst hneg
    simp only [if_false, Bool.false_eq_true]
    rw [Rat.mkRat_eq_div]
    positivity

/-- The binary64 rounding of a positive fraction is non-negative. -/
theorem roundB64Frac_nonneg (a b : ℕ) : 0 ≤ roundB64Frac a b := by
  simp only [roundB64Frac]
  split_ifs with hs
  · rw [Rat.mkRat_eq_div]
    positivity
  · rw [Rat.mkRat_eq_div]
    positivity

/-- Binary64 rounding preserves non-negativity. -/
theorem roundB64_nonneg (q : ℚ) (h : 0 ≤ q) : 0 ≤ roundB64 q := by
  unfold roundB64
  split_ifs with h0 hneg
  · norm_num
  · exact absurd hneg (by linarith [lt_of_le_of_ne h (Ne.symm h0)])
  · exact roundB64Frac_nonneg _ _

/-- A repr candidate for a positive fraction is non-negative. -/
theorem reprCandidate_nonneg (a b p : ℕ) : 0 ≤ reprCandidate a b p := by
  simp only [reprCandidate]
  split_ifs with hs
  · rw [Rat.mkRat_eq_div]
    positivity
  · rw [Rat.mkRat_eq_div]
    positivity

/-- The shortest-repr value of a positive fraction is non-negative. -/
theorem shortestReprPos_nonneg (a b : ℕ) : 0 ≤ shortestReprPos a b := by
  unfold shortestReprPos
  split
  · rename_i c heq
    obtain ⟨i, _, hi⟩ := List.exists_of_findSome?_eq_some heq
    split at hi
    · obtain rfl := Option.some.inj hi
      exact reprCandidate_nonneg a b (i + 1)
    · exact Option.noConfusion hi
  · rw [Rat.mkRat_eq_div]
    positivity

/-- pydantic's float→Decimal conversion preserves non-negativity. -/
theorem pydanticDecimalOfFloat_nonneg (v : ℚ) (h : 0 ≤ v) :
    0 ≤ pydanticDecimalOfFloat v := by
  unfold pydanticDecimalOfFloat
  split_ifs with h0 hneg
  · norm_num
  · exact absurd hneg (by linarith [lt_of_le_of_ne h (Ne.symm h0)])
  · exact shortestReprPos_nonneg _ _

/-- The digit-stripping Scorptec price parse only yields non-negative
values. -/
theorem scorptecParsePrice?_nonneg (pt : Str) (q : ℚ)
    (h : scorptecParsePrice? pt = some q) : 0 ≤ q := by
  have hnm : '-' ∉ stripNonDigitDot pt := by
    intro hm
    simp [stripNonDigitDot, List.mem_filter] at hm
  unfold scorptecParsePrice? pyFloat? at h
  rcases hp : parseDecExact? (stripNonDigitDot pt) with _ | q0
  · rw [hp] at h
    exact absurd h (by simp)
  · rw [hp] at h
    simp only [Option.map_some'] at h
    obtain rfl : _ = q := Option.some.inj h
    exact roundB64_nonneg q0 (parseDecExact?_nonneg _ hnm q0 hp)

/-- The token matched by the eBay price regex contains no minus sign. -/
theorem firstPriceToken?_noMinus (cs : Str) (tok : Str)
    (h : firstPriceToken? cs = some tok) : '-' ∉ tok := by
  intro hm
  simp only [firstPriceToken?] at h
  rcases hskip : List.dropWhile (fun c => !c.isDigit) cs with _ | ⟨c0, rest0⟩
  · rw [hskip] at h
    exact Option.noConfusion h
  · rw [hskip] at h
    dsimp only at h
    rcases hd : List.dropWhile Char.isDigit (c0 :: rest0) with _ | ⟨c1, rest1⟩ <;>
      rw [hd] at h
    · dsimp only at h
      obtain rfl := Option.some.inj h
      exact absurd (List.mem_takeWhile_imp hm) (by decide)
    · split at h
      · rename_i rest2 heq
        obtain rfl := Option.some.inj h
        rcases List.mem_append.1 hm with h1 | h2
        · exact absurd (List.mem_takeWhile_imp h1) (by decide)
        · rcases List.mem_cons.1 h2 with h3 | h4
          · exact absurd h3 (by decide)
          · exact absurd (List.mem_takeWhile_imp h4) (by decide)
      · obtain rfl := Option.some.inj h
        exact absurd (List.mem_takeWhile_imp hm) (by decide)

/-- The eBay price parse only yields non-negative values. -/
theorem ebayParsePrice?_nonneg (pt : Str) (q : ℚ)
    (h : ebayParsePrice? pt = some q) : 0 ≤ q := by
  unfold ebayParsePrice? at h
  rcases htok : firstPriceToken? (dropCommas pt) with _ | tok
  · rw [htok] at h
    exact Option.noConfusion h
  · rw [htok] at h
    unfold pyFloat? at h
    dsimp only at h
    rcases hp : parseDecExact? tok with _ | q0
    · rw [hp] at h
      exact absurd h (by simp)
    · rw [hp] at h
      simp only [Option.map_some'] at h
      obtain rfl : _ = q := Option.some.inj h
      exact roundB64_nonneg q0
        (parseDecExact?_nonneg _ (firstPriceToken?_noMinus _ _ htok) q0 hp)

/-- The price extracted from an eBay page is non-negative. -/
theorem ebayExtractPrice?_nonneg (page : EbayPage) (q : ℚ)
    (h : ebayExtractPrice? page = some q) : 0 ≤ q := by
  obtain ⟨t, _, ht⟩ := List.exists_of_findSome?_eq_some h
  exact ebayParsePrice?_nonneg t q ht

/-- C10 counterexample: on a page whose price text is `"$-5.00"` (the
Mwave parse only slices off the first character and commas, preserving a
minus sign), the Mwave adapter constructs a VendorResult with
`found=true` and price −5 — a negative price, violating the claimed
invariant. -/
theorem C10_counterexample :
    mwaveScrapeSync true (some "SKU: X9".toList) (some "$-5.00".toList) "X9".toList
      = .ok { vendor_id := "mwave".toList, url := some (mwaveSearchUrl "X9".toList),
              mpn := some "X9".toList, price := some (-5), currency := audCur,
              found := true } ∧
    ((-5 : ℚ) < 0) := by decide

/-- C10 (amended): every embedded adapter returns either its `not_found`
sentinel — all optional fields absent — or a `found=true` record with a
price present; the Scorptec and eBay parses additionally guarantee a
non-negative price, but Mwave (and JWC, whose price comes from vendor
JSON) do not enforce non-negativity; the fallback wrapper preserves the
found/price invariant of its legs. -/
theorem C10_result_shapes :
    (∀ resp mpn, scorptecHttpScrape resp mpn = notFoundResult "scorptec".toList ∨
      ∃ u p, 0 ≤ p ∧ scorptecHttpScrape resp mpn
        = { vendor_id := "scorptec".toList, url := some u, mpn := some mpn,
            price := some p, currency := audCur, found := true }) ∧
    (∀ ok sku pt mpn r, mwaveScrapeSync ok sku pt mpn = .ok r →
      r = notFoundResult "mwave".toList ∨
      ∃ p, r = { vendor_id := "mwave".toList, url := some (mwaveSearchUrl mpn),
                 mpn := some mpn, price := some p, currency := audCur, found := true }) ∧
    (∀ resp mpn, jwcHttpScrape resp mpn = notFoundResult "jw_computers".toList ∨
      ∃ u p, p ≠ 0 ∧ jwcHttpScrape resp mpn
        = { vendor_id := "jw_computers".toList, url := u, mpn := some mpn,
            price := some p, currency := audCur, found := true }) ∧
    (∀ page? url mpn, ebayScrapeProductPage page? url mpn = notFoundResult "ebay_au".toList ∨
      ∃ p, 0 ≤ p ∧ ebayScrapeProductPage page? url mpn
        = { vendor_id := "ebay_au".toList, url := some url, mpn := some mpn,
            price := some p, currency := audCur, found := true }) ∧
    (∀ primary secondary sentinel,
      (∀ r, primary = .ok r → ResultOk r) →
      (∀ s, secondary = .ok s → ResultOk s) →
      ResultOk sentinel →
      ResultOk (fallbackScrape primary secondary sentinel).1) := by
  refine ⟨?_, ?_, ?_, ?_, ?_⟩
  · intro resp mpn
    cases resp with
    | error e => exact Or.inl rfl
    | ok r =>
      unfold scorptecHttpScrape
      repeat' split
      all_goals first
        | exact Or.inl rfl
        | (rename_i hparse
           exact Or.inr ⟨_, _,
             pydanticDecimalOfFloat_nonneg _ (scorptecParsePrice?_nonneg _ _ hparse), rfl⟩)
  · intro ok sku pt mpn r hres
    unfold mwaveScrapeSync at hres
    repeat' split at hres
    all_goals first
      | exact Except.noConfusion hres
      | (obtain rfl := Except.ok.inj hres
         first
          | exact Or.inl rfl
          | exact Or.inr ⟨_, rfl⟩)
  · intro resp mpn
    cases resp with
    | error e => exact Or.inl rfl
    | ok r =>
      unfold jwcHttpScrape
      repeat' split
      all_goals first
        | exact Or.inl rfl
        | (rename_i hzero
           exact Or.inr ⟨_, _, hzero, rfl⟩)
  · intro page? url mpn
    cases page? with
    | none => exact Or.inl rfl
    | some pg =>
      unfold ebayScrapeProductPage
      repeat' split
      all_goals first
        | exact Or.inl rfl
        | (rename_i hextract
           exact Or.inr ⟨_,
             pydanticDecimalOfFloat_nonneg _ (ebayExtractPrice?_nonneg _ _ hextract), rfl⟩)
  · intro primary secondary sentinel hp hs hsent
    cases primary with
    | error e =>
      show ResultOk (fallbackSecondary secondary sentinel)
      cases secondary with
      | error e2 => exact hsent
      | ok s => exact hs s rfl
    | ok r =>
      by_cases hf : r.found
      · simp only [fallbackScrape, hf, if_true]
        exact hp r rfl
      · simp only [fallbackScrape, hf, if_false]
        show ResultOk (fallbackSecondary secondary sentinel)
        cases secondary with
        | error e2 => exact hsent
        | ok s => exact hs s rfl

/-- C10 amended witness: the amended theorem applied at concrete inputs —
a found Scorptec response (non-negative price), a Mwave not-found page,
and the fallback of two invariant-respecting legs. -/
theorem C10_result_shapes_witness :
    (scorptecHttpScrape
        (.ok ⟨200, true, some ⟨"x9".toList, some "t".toList, none, some "$245.00".toList⟩⟩)
        "X9".toList = notFoundResult "scorptec".toList ∨
      ∃ u p, 0 ≤ p ∧ scorptecHttpScrape
        (.ok ⟨200, true, some ⟨"x9".toList, some "t".toList, none, some "$245.00".toList⟩⟩)
        "X9".toList
        = { vendor_id := "scorptec".toList, url := some u, mpn := some "X9".toList,
            price := some p, currency := audCur, found := true }) ∧
    ResultOk (fallbackScrape (.error ()) (.ok (notFoundResult "scorptec".toList))
      (notFoundResult "scorptec".toList)).1 := by
  constructor
  · exact C10_result_shapes.1
      (.ok ⟨200, true, some ⟨"x9".toList, some "t".toList, none, some "$245.00".toList⟩⟩)
      "X9".toList
  · refine C10_result_shapes.2.2.2.2 (.error ()) (.ok (notFoundResult "scorptec".toList))
      (notFoundResult "scorptec".toList) ?_ ?_ ?_
    · intro r hr
      exact Except.noConfusion hr
    · intro s hs2
      obtain rfl := Except.ok.inj hs2
      exact ⟨fun _ => ⟨rfl, rfl, rfl⟩, fun ht => by simp [notFoundResult] at ht⟩
    · exact ⟨fun _ => ⟨rfl, rfl, rfl⟩, fun ht => by simp [notFoundResult] at ht⟩

end PriceScout
